import Mathlib

/-!
# Verification of the pendulum simulation core

This file embeds the numerical core of the pendulum simulator —
the integrator utilities (`rk4`, `euler`, `normalizeAngle`), the
`BaseSimulation` lifecycle (init / step / reset / recordHistory /
enableRecording / export / setParams), and the three concrete models
(SimplePendulum, DoublePendulum, NPendulum) — and proves properties of the
embedded definitions.

The lifecycle and the integrators never use transcendental functions, so
they are embedded generically over a `Field α`; the claims instantiate
them at `ℝ` (or at `ℚ` for concrete witnesses, where evaluation is
decidable).  The concrete pendulum models use `Real.sin`/`Real.cos` and
live over `ℝ`.

JavaScript `number` is IEEE-754; the embedding reads the arithmetic as
exact field arithmetic, which is the standard shallow reading of the
numeric source.
-/

set_option maxRecDepth 4000

namespace PendulumSim

/-- `y + c·k` componentwise, the in-place loop `temp[i] = state[i] + c * k[i]`
(`for i < n`); `zipWith` stops at the shorter list exactly as the loop stops
at `n`. -/
def axpy {α : Type} [Field α] (c : α) (y k : List α) : List α :=
  List.zipWith (fun yi ki => yi + c * ki) y k

/-- Embedding of `euler` (src/unnamed/part_002, lines 18–30): `d = f(t, state)`,
`result[i] = state[i] + d[i] * dt` for `i < n = state.length`, returning a copy
of the first `n` slots. -/
def euler {α : Type} [Field α] (state : List α) (t dt : α)
    (derivatives : α → List α → List α) : List α :=
  let n := state.length
  let d := (derivatives t state).take n
  (List.range n).map fun i => state.getD i 0 + d.getD i 0 * dt

/-- Embedding of `rk4` (src/unnamed/part_002, lines 77–113).  The source copies
the first `n` components of each derivative result into pre-allocated buffers
(`_rk4_k1` … `_rk4_k4`), builds `temp` vectors with the `axpy` loops, and
returns `_rk4_result.slice(0, n)`; the `take n` here is that copy of the first
`n` slots. -/
def rk4 {α : Type} [Field α] (state : List α) (t dt : α)
    (derivatives : α → List α → List α) : List α :=
  let n := state.length
  let dt2 := dt / 2
  let dt6 := dt / 6
  let k1 := (derivatives t state).take n
  let k2 := (derivatives (t + dt2) (axpy dt2 state k1)).take n
  let k3 := (derivatives (t + dt2) (axpy dt2 state k2)).take n
  let k4 := (derivatives (t + dt) (axpy dt state k3)).take n
  (List.range n).map fun i =>
    state.getD i 0 +
      dt6 * (k1.getD i 0 + 2 * k2.getD i 0 + 2 * k3.getD i 0 + k4.getD i 0)

theorem axpy_length {α : Type} [Field α] (c : α) (y k : List α) :
    (axpy c y k).length = min y.length k.length := by
  simp [axpy]

theorem getD_map_range {α : Type} (n : ℕ) (g : ℕ → α) (i : ℕ)
    (hi : i < n) (d : α) : ((List.range n).map g).getD i d = g i := by
  rw [List.getD_eq_getElem?_getD]
  simp [List.getElem?_range, hi]

theorem rk4_length {α : Type} [Field α] (state : List α) (t dt : α)
    (f : α → List α → List α) : (rk4 state t dt f).length = state.length := by
  simp [rk4]

section RK4Spec

variable {α : Type} [Field α]

/-- C1: for every state vector of length `n ≤ 20`, time `t`, step `dt` and
(length-preserving) derivative function `f`, `rk4 state t dt f` returns a
vector of length `n` whose `i`-th component is the classic four-stage
Runge-Kutta update
`y[i] + dt/6·(k1[i] + 2·k2[i] + 2·k3[i] + k4[i])` with
`k1 = f(t, y)`, `k2 = f(t+dt/2, y+dt/2·k1)`, `k3 = f(t+dt/2, y+dt/2·k2)`,
`k4 = f(t+dt, y+dt·k3)`. -/
theorem rk4_matches_classic_runge_kutta (state : List α) (t dt : α)
    (f : α → List α → List α) (_hn : state.length ≤ 20)
    (hf : ∀ u s, (f u s).length = s.length) (i : ℕ) (hi : i < state.length) :
    (rk4 state t dt f).length = state.length ∧
    (rk4 state t dt f).getD i 0 =
      state.getD i 0 + dt / 6 *
        ((f t state).getD i 0
         + 2 * (f (t + dt / 2) (axpy (dt / 2) state (f t state))).getD i 0
         + 2 * (f (t + dt / 2) (axpy (dt / 2) state
             (f (t + dt / 2) (axpy (dt / 2) state (f t state))))).getD i 0
         + (f (t + dt) (axpy dt state
             (f (t + dt / 2) (axpy (dt / 2) state
               (f (t + dt / 2) (axpy (dt / 2) state (f t state))))))).getD i 0) := by
  have htake : ∀ (u : α) (s : List α), s.length = state.length →
      (f u s).take state.length = f u s := by
    intro u s hs
    rw [List.take_of_length_le]
    rw [hf u s, hs]
  have hax : ∀ (c : α) (k : List α), k.length = state.length →
      (axpy c state k).length = state.length := by
    intro c k hk
    rw [axpy_length, hk, min_self]
  refine ⟨rk4_length state t dt f, ?_⟩
  simp only [rk4]
  rw [htake t state rfl]
  rw [htake _ _ (hax _ _ (hf t state))]
  rw [htake _ _ (hax _ _ (hf _ _ |>.trans (hax _ _ (hf t state))))]
  rw [htake _ _ (hax _ _ ((hf _ _).trans (hax _ _ ((hf _ _).trans (hax _ _ (hf t state))))))]
  rw [getD_map_range _ _ _ hi]

end RK4Spec

/-! ## Data model (src/src/core/types/simulation.ts)

`Vector3`, `EnergyState`, `PhasePoint`, `PhysicsState` and `ExportData`,
generic over the scalar type.  The optional `accelerations` field of
`PhysicsState` is omitted: none of the three models ever produces it.
The constant-string metadata (`SimulationMeta`) carries no numeric content
and is omitted from `ExportData`. -/

structure Vector3 (α : Type) where
  x : α
  y : α
  z : α
deriving DecidableEq

structure EnergyState (α : Type) where
  kinetic : α
  potential : α
  total : α
deriving DecidableEq

structure PhasePoint (α : Type) where
  angle : α
  angularVelocity : α
  time : α
deriving DecidableEq

structure PhysicsState (α : Type) where
  time : α
  positions : List (Vector3 α)
  velocities : List (Vector3 α)
deriving DecidableEq

/-- The `integrationMethod` union type `'euler' | 'verlet' | 'rk4'`. -/
inductive IntegrationMethod
  | euler
  | verlet
  | rk4
deriving DecidableEq

/-- `Record<string, number>` as an association list; `List.lookup` finds the
first binding, so the JS spread `{...base, ...overrides}` (later keys win) is
`overrides ++ base` under `lookup`. -/
def mergeRecord {α : Type} (base overrides : List (String × α)) :
    List (String × α) :=
  overrides ++ base

/-- `ExportData` (src/src/core/types/simulation.ts, lines 113–123), minus the
constant-string `meta` block. -/
structure ExportData (α : Type) where
  params : List (String × α)
  time : List α
  positions : List (List (Vector3 α))
  velocities : List (List (Vector3 α))
  energy : List (EnergyState α)
  phaseSpace : Option (List (List (PhasePoint α)))
deriving DecidableEq

/-! ## BaseSimulation (src/src/simulations/templates/BaseSimulation.ts)

The abstract methods a subclass must provide, together with the relevant
`config.physics` fields, form a `ModelSpec`; the mutable instance fields form
a `SimState`.  The lifecycle methods become functions
`ModelSpec → SimState → … → SimState`. -/

/-- The per-model capability: the abstract overrides of `BaseSimulation`
(`createInitialState`, `computeDerivatives`, `stateToPhysics`, `getEnergy`,
optional `getPhaseSpace`) plus `config.defaultParams` (each entry's `value`)
and `config.physics.integrationMethod` / `config.physics.fixedTimestep`.
The overrides read `this.params`, so each takes the parameter record;
`stateToPhysics` and `getPhaseSpace` also read `this.time`. -/
structure ModelSpec (α : Type) where
  defaultParams : List (String × α)
  integrationMethod : IntegrationMethod
  fixedTimestep : α
  createInitialState : List (String × α) → List α
  computeDerivatives : List (String × α) → α → List α → List α
  stateToPhysics : List (String × α) → α → List α → PhysicsState α
  getEnergy : List (String × α) → List α → EnergyState α
  getPhaseSpace : Option (List (String × α) → α → List α → List (PhasePoint α))

/-- The mutable instance fields of `BaseSimulation` (lines 21–36). -/
@[ext]
structure SimState (α : Type) where
  time : α
  state : List α
  initialState : List α
  params : List (String × α)
  timeHistory : List α
  positionHistory : List (List (Vector3 α))
  velocityHistory : List (List (Vector3 α))
  energyHistory : List (EnergyState α)
  phaseHistory : List (List (PhasePoint α))
  recordingEnabled : Bool
deriving DecidableEq

/-- Field initializers of a freshly constructed `BaseSimulation`
(lines 21–36): time 0, empty buffers, recording off. -/
def SimState.initial {α : Type} [Field α] : SimState α :=
  { time := 0, state := [], initialState := [], params := [],
    timeHistory := [], positionHistory := [], velocityHistory := [],
    energyHistory := [], phaseHistory := [], recordingEnabled := false }

/-- `maxHistoryLength` (line 33). -/
def maxHistoryLength : ℕ := 10000

/-- `clearHistory` (lines 156–162). -/
def clearHistory {α : Type} (s : SimState α) : SimState α :=
  { s with timeHistory := [], positionHistory := [], velocityHistory := [],
           energyHistory := [], phaseHistory := [] }

/-- `init(params)` (lines 41–47): merge supplied params over defaults, reset
time, derive the initial state (from the merged params), snapshot it, clear
history. -/
def init {α : Type} [Field α] (M : ModelSpec α) (s : SimState α)
    (params : List (String × α)) : SimState α :=
  let newParams := mergeRecord M.defaultParams params
  let newState := M.createInitialState newParams
  clearHistory { s with params := newParams, time := 0, state := newState,
                        initialState := newState }

/-- JS `array.slice(-k)` for `k > 0`: the last `k` elements (the whole list
when it is shorter than `k`). -/
def keepLast {β : Type} (k : ℕ) (l : List β) : List β :=
  l.drop (l.length - k)

/-- The retained length `maxHistoryLength - 1000` of the trim
`slice(-this.maxHistoryLength + 1000)` in `recordHistory` (lines 121–125). -/
def retainedLength : ℕ := maxHistoryLength - 1000

/-- The `phase.forEach((p, i) => { if (!this.phaseHistory[i])
this.phaseHistory[i] = []; this.phaseHistory[i].push(p); })` loop
(lines 135–138): entry `i` of the history gets `phase[i]` appended (starting
from `[]` when absent); entries beyond `phase.length` are untouched. -/
def pushPhase {α : Type} [Field α] (hist : List (List (PhasePoint α)))
    (phase : List (PhasePoint α)) : List (List (PhasePoint α)) :=
  (List.range (max hist.length phase.length)).map fun i =>
    if i < phase.length then hist.getD i [] ++ [phase.getD i ⟨0, 0, 0⟩]
    else hist.getD i []

/-- `recordHistory(physics)` (lines 113–140): no-op while recording is
disabled; otherwise trim every buffer to the last `maxHistoryLength - 1000`
entries when `timeHistory` has reached `maxHistoryLength`, then push one
sample onto each buffer.  The energy sample is `this.getEnergy()` on the
current (already advanced) state. -/
def recordHistory {α : Type} [Field α] (M : ModelSpec α) (s : SimState α)
    (physics : PhysicsState α) : SimState α :=
  if s.recordingEnabled = false then s
  else
    let s1 :=
      if maxHistoryLength ≤ s.timeHistory.length then
        { s with
          timeHistory := keepLast retainedLength s.timeHistory,
          positionHistory := keepLast retainedLength s.positionHistory,
          velocityHistory := keepLast retainedLength s.velocityHistory,
          energyHistory := keepLast retainedLength s.energyHistory,
          phaseHistory := s.phaseHistory.map (keepLast retainedLength) }
      else s
    let s2 := { s1 with
      timeHistory := s1.timeHistory ++ [physics.time],
      positionHistory := s1.positionHistory ++ [physics.positions],
      velocityHistory := s1.velocityHistory ++ [physics.velocities],
      energyHistory := s1.energyHistory ++ [M.getEnergy s1.params s1.state] }
    match M.getPhaseSpace with
    | none => s2
    | some ps =>
        { s2 with phaseHistory :=
            pushPhase s2.phaseHistory (ps s2.params s2.time s2.state) }

/-- `fixedTimestep || dt` (line 80): JS `||` falls through on the falsy
number `0` (and on an absent field), so the caller's `dt` is used exactly
when the configured fixed timestep is zero. -/
def resolveDt {α : Type} [Field α] [DecidableEq α] (fixedTimestep dt : α) :
    α :=
  if fixedTimestep = 0 then dt else fixedTimestep

/-- `step(dt)` (lines 78–106): resolve the timestep, advance the state with
the configured integrator (`euler` for `'euler'`, `rk4` for `'rk4'` and for
the switch's `default`), advance time, build the `PhysicsState` from the new
state and new time, conditionally record history, return the
`PhysicsState`. -/
def step {α : Type} [Field α] [DecidableEq α] (M : ModelSpec α)
    (s : SimState α) (dt : α) : SimState α × PhysicsState α :=
  let actualDt := resolveDt M.fixedTimestep dt
  let newState :=
    match M.integrationMethod with
    | IntegrationMethod.euler =>
        euler s.state s.time actualDt (M.computeDerivatives s.params)
    | _ => rk4 s.state s.time actualDt (M.computeDerivatives s.params)
  let newTime := s.time + actualDt
  let physics := M.stateToPhysics s.params newTime newState
  (recordHistory M { s with state := newState, time := newTime } physics,
   physics)

/-- `reset()` (lines 177–181). -/
def reset {α : Type} [Field α] (s : SimState α) : SimState α :=
  clearHistory { s with time := 0, state := s.initialState }

/-- `enableRecording(enabled)` (lines 146–151). -/
def enableRecording {α : Type} (s : SimState α) (enabled : Bool) :
    SimState α :=
  let s' := { s with recordingEnabled := enabled }
  if enabled then clearHistory s' else s'

/-- `export()` (lines 186–198): a snapshot of params and the history buffers;
`phaseSpace` is present only when `phaseHistory` is non-empty. -/
def exportData {α : Type} (s : SimState α) : ExportData α :=
  { params := s.params,
    time := s.timeHistory,
    positions := s.positionHistory,
    velocities := s.velocityHistory,
    energy := s.energyHistory,
    phaseSpace :=
      if 0 < s.phaseHistory.length then some s.phaseHistory else none }

/-- `getParams()` (lines 210–212): a shallow copy of the parameter record. -/
def getParams {α : Type} (s : SimState α) : List (String × α) :=
  s.params

/-- `setParams(params)` (lines 217–219): `this.params = {...this.params,
...params}` — a public method that merges new values into the parameters. -/
def setParams {α : Type} (s : SimState α) (params : List (String × α)) :
    SimState α :=
  { s with params := mergeRecord s.params params }

/-- `getEnergy()` as dispatched to the subclass: reads `this.params` and
`this.state`, mutates nothing. -/
def getEnergyOf {α : Type} (M : ModelSpec α) (s : SimState α) :
    EnergyState α :=
  M.getEnergy s.params s.state

/-- `N` consecutive `step(dt)` calls, collecting the returned
`PhysicsState`s. -/
def stepN {α : Type} [Field α] [DecidableEq α] (M : ModelSpec α) (dt : α) :
    SimState α → ℕ → SimState α × List (PhysicsState α)
  | s, 0 => (s, [])
  | s, n + 1 =>
      let r := step M s dt
      let rest := stepN M dt r.1 n
      (rest.1, r.2 :: rest.2)

/-! ## Concrete instances for witnesses (over `ℚ`, where evaluation is
decidable) -/

/-- The doubling derivative `f(t, y) = 2·y`, a length-preserving derivative
function for exercising the integrator. -/
def doublingDeriv : ℚ → List ℚ → List ℚ :=
  fun _ s => s.map (fun x => 2 * x)

/-- A minimal concrete model over `ℚ`: identity derivatives, RK4,
fixed timestep 1/480. -/
def qModel : ModelSpec ℚ :=
  { defaultParams := [("gravity", 981 / 100)],
    integrationMethod := IntegrationMethod.rk4,
    fixedTimestep := 1 / 480,
    createInitialState := fun _ => [1, 0],
    computeDerivatives := fun _ _ s => s,
    stateToPhysics := fun _ t s =>
      { time := t, positions := [⟨s.getD 0 0, 0, 0⟩],
        velocities := [⟨s.getD 1 0, 0, 0⟩] },
    getEnergy := fun _ s => { kinetic := s.getD 1 0, potential := s.getD 0 0,
                              total := s.getD 0 0 + s.getD 1 0 },
    getPhaseSpace := some (fun _ t s =>
      [{ angle := s.getD 0 0, angularVelocity := s.getD 1 0, time := t }]) }

/-- C1 witness: the Runge-Kutta theorem applied to the concrete state
`[1, 2]` over `ℚ` with `t = 0`, `dt = 1`, `f(t, y) = 2·y`, component 0. -/
theorem rk4_matches_classic_runge_kutta_witness :
    (rk4 ([1, 2] : List ℚ) 0 1 doublingDeriv).length =
      ([1, 2] : List ℚ).length ∧
    (rk4 ([1, 2] : List ℚ) 0 1 doublingDeriv).getD 0 0 =
      ([1, 2] : List ℚ).getD 0 0 + 1 / 6 *
        ((doublingDeriv 0 [1, 2]).getD 0 0
         + 2 * (doublingDeriv (0 + 1 / 2)
             (axpy (1 / 2) [1, 2] (doublingDeriv 0 [1, 2]))).getD 0 0
         + 2 * (doublingDeriv (0 + 1 / 2) (axpy (1 / 2) [1, 2]
             (doublingDeriv (0 + 1 / 2)
               (axpy (1 / 2) [1, 2] (doublingDeriv 0 [1, 2]))))).getD 0 0
         + (doublingDeriv (0 + 1) (axpy 1 [1, 2]
             (doublingDeriv (0 + 1 / 2) (axpy (1 / 2) [1, 2]
               (doublingDeriv (0 + 1 / 2)
                 (axpy (1 / 2) [1, 2]
                   (doublingDeriv 0 [1, 2]))))))).getD 0 0) :=
  rk4_matches_classic_runge_kutta [1, 2] 0 1 doublingDeriv (by decide)
    (fun u s => by simp [doublingDeriv]) 0 (by decide)

/-! ## Structural lemmas about `recordHistory` and `step` -/

section Lifecycle

variable {α : Type} [Field α]

/-- `recordHistory` touches only the history buffers: time, state, initial
state, params and the recording flag pass through every branch. -/
theorem recordHistory_core (M : ModelSpec α) (s : SimState α)
    (p : PhysicsState α) :
    (recordHistory M s p).time = s.time ∧
    (recordHistory M s p).state = s.state ∧
    (recordHistory M s p).initialState = s.initialState ∧
    (recordHistory M s p).params = s.params ∧
    (recordHistory M s p).recordingEnabled = s.recordingEnabled := by
  simp only [recordHistory]
  split
  · exact ⟨rfl, rfl, rfl, rfl, rfl⟩
  · split <;> split <;> exact ⟨rfl, rfl, rfl, rfl, rfl⟩

/-- The state vector `step` installs before recording. -/
def integratedState [DecidableEq α] (M : ModelSpec α) (s : SimState α) (dt : α) : List α :=
  match M.integrationMethod with
  | IntegrationMethod.euler =>
      euler s.state s.time (resolveDt M.fixedTimestep dt)
        (M.computeDerivatives s.params)
  | _ => rk4 s.state s.time (resolveDt M.fixedTimestep dt)
        (M.computeDerivatives s.params)

theorem step_fst_eq [DecidableEq α] (M : ModelSpec α) (s : SimState α) (dt : α) :
    (step M s dt).1 =
      recordHistory M
        { s with state := integratedState M s dt,
                 time := s.time + resolveDt M.fixedTimestep dt }
        (M.stateToPhysics s.params (s.time + resolveDt M.fixedTimestep dt)
          (integratedState M s dt)) := by
  simp only [step, integratedState]

theorem step_snd_eq [DecidableEq α] (M : ModelSpec α) (s : SimState α) (dt : α) :
    (step M s dt).2 =
      M.stateToPhysics s.params (s.time + resolveDt M.fixedTimestep dt)
        (integratedState M s dt) := by
  simp only [step, integratedState]

/-- `step` mutates only the state vector, the time and (possibly) the history
buffers. -/
theorem step_core [DecidableEq α] (M : ModelSpec α) (s : SimState α) (dt : α) :
    (step M s dt).1.time = s.time + resolveDt M.fixedTimestep dt ∧
    (step M s dt).1.state = integratedState M s dt ∧
    (step M s dt).1.initialState = s.initialState ∧
    (step M s dt).1.params = s.params ∧
    (step M s dt).1.recordingEnabled = s.recordingEnabled := by
  rw [step_fst_eq]
  obtain ⟨h1, h2, h3, h4, h5⟩ := recordHistory_core M
    { s with state := integratedState M s dt,
             time := s.time + resolveDt M.fixedTimestep dt }
    (M.stateToPhysics s.params (s.time + resolveDt M.fixedTimestep dt)
      (integratedState M s dt))
  exact ⟨h1, h2, h3, h4, h5⟩

/-- `step` consults the caller-supplied `dt` only through `resolveDt`. -/
theorem step_congr_dt [DecidableEq α] (M : ModelSpec α) (s : SimState α) (dt dt' : α)
    (h : resolveDt M.fixedTimestep dt = resolveDt M.fixedTimestep dt') :
    step M s dt = step M s dt' := by
  unfold step
  rw [h]

end Lifecycle

section HistoryLemmas

variable {α : Type} [Field α]

/-- `recordHistory` skips everything while recording is disabled
(line 115: `if (!this.recordingEnabled) return;`). -/
theorem recordHistory_disabled (M : ModelSpec α) (s : SimState α)
    (p : PhysicsState α) (h : s.recordingEnabled = false) :
    recordHistory M s p = s := by
  simp [recordHistory, h]

/-- While recording, below the capacity threshold: one sample is appended to
each of the four parallel buffers. -/
theorem recordHistory_enabled_push (M : ModelSpec α) (s : SimState α)
    (p : PhysicsState α) (h : s.recordingEnabled = true)
    (hlen : s.timeHistory.length < maxHistoryLength) :
    (recordHistory M s p).timeHistory = s.timeHistory ++ [p.time] ∧
    (recordHistory M s p).positionHistory =
      s.positionHistory ++ [p.positions] ∧
    (recordHistory M s p).velocityHistory =
      s.velocityHistory ++ [p.velocities] ∧
    (recordHistory M s p).energyHistory =
      s.energyHistory ++ [M.getEnergy s.params s.state] := by
  have hcond : ¬ (s.recordingEnabled = false) := by simp [h]
  simp only [recordHistory]
  rw [if_neg hcond]
  cases M.getPhaseSpace
  · rw [if_neg (not_le.mpr hlen)]
    exact ⟨rfl, rfl, rfl, rfl⟩
  · rw [if_neg (not_le.mpr hlen)]
    exact ⟨rfl, rfl, rfl, rfl⟩

theorem recordHistory_trim_time (M : ModelSpec α) (s : SimState α)
    (p : PhysicsState α) (h : s.recordingEnabled = true)
    (hlen : maxHistoryLength ≤ s.timeHistory.length) :
    (recordHistory M s p).timeHistory =
      keepLast retainedLength s.timeHistory ++ [p.time] := by
  have hcond : ¬ (s.recordingEnabled = false) := by simp [h]
  simp only [recordHistory]
  rw [if_neg hcond]
  cases M.getPhaseSpace
  · rw [if_pos hlen]
  · rw [if_pos hlen]

theorem recordHistory_trim_position (M : ModelSpec α) (s : SimState α)
    (p : PhysicsState α) (h : s.recordingEnabled = true)
    (hlen : maxHistoryLength ≤ s.timeHistory.length) :
    (recordHistory M s p).positionHistory =
      keepLast retainedLength s.positionHistory ++ [p.positions] := by
  have hcond : ¬ (s.recordingEnabled = false) := by simp [h]
  simp only [recordHistory]
  rw [if_neg hcond]
  cases M.getPhaseSpace
  · rw [if_pos hlen]
  · rw [if_pos hlen]

theorem recordHistory_trim_velocity (M : ModelSpec α) (s : SimState α)
    (p : PhysicsState α) (h : s.recordingEnabled = true)
    (hlen : maxHistoryLength ≤ s.timeHistory.length) :
    (recordHistory M s p).velocityHistory =
      keepLast retainedLength s.velocityHistory ++ [p.velocities] := by
  have hcond : ¬ (s.recordingEnabled = false) := by simp [h]
  simp only [recordHistory]
  rw [if_neg hcond]
  cases M.getPhaseSpace
  · rw [if_pos hlen]
  · rw [if_pos hlen]

theorem recordHistory_trim_energy (M : ModelSpec α) (s : SimState α)
    (p : PhysicsState α) (h : s.recordingEnabled = true)
    (hlen : maxHistoryLength ≤ s.timeHistory.length) :
    (recordHistory M s p).energyHistory =
      keepLast retainedLength s.energyHistory ++
        [M.getEnergy s.params s.state] := by
  have hcond : ¬ (s.recordingEnabled = false) := by simp [h]
  simp only [recordHistory]
  rw [if_neg hcond]
  cases M.getPhaseSpace
  · rw [if_pos hlen]
  · rw [if_pos hlen]

/-- While recording, at or above the capacity threshold: every buffer is
first cut down to its last `retainedLength` entries (drop-oldest), then one
sample is appended. -/
theorem recordHistory_enabled_trim (M : ModelSpec α) (s : SimState α)
    (p : PhysicsState α) (h : s.recordingEnabled = true)
    (hlen : maxHistoryLength ≤ s.timeHistory.length) :
    (recordHistory M s p).timeHistory =
      keepLast retainedLength s.timeHistory ++ [p.time] ∧
    (recordHistory M s p).positionHistory =
      keepLast retainedLength s.positionHistory ++ [p.positions] ∧
    (recordHistory M s p).velocityHistory =
      keepLast retainedLength s.velocityHistory ++ [p.velocities] ∧
    (recordHistory M s p).energyHistory =
      keepLast retainedLength s.energyHistory ++
        [M.getEnergy s.params s.state] :=
  ⟨recordHistory_trim_time M s p h hlen,
   recordHistory_trim_position M s p h hlen,
   recordHistory_trim_velocity M s p h hlen,
   recordHistory_trim_energy M s p h hlen⟩

theorem keepLast_length {β : Type} (k : ℕ) (l : List β) :
    (keepLast k l).length = l.length - (l.length - k) := by
  simp [keepLast]

end HistoryLemmas

/-! ## C7: no history mutation while recording is disabled -/

/-- C7: with recording disabled (the default), `step` leaves all five history
buffers untouched and mutates only the state vector and the time (the
initial-state snapshot, the parameters and the recording flag are also
untouched). -/
theorem step_without_recording_keeps_history {α : Type} [Field α]
    [DecidableEq α] (M : ModelSpec α) (s : SimState α) (dt : α)
    (h : s.recordingEnabled = false) :
    (step M s dt).1.timeHistory = s.timeHistory ∧
    (step M s dt).1.positionHistory = s.positionHistory ∧
    (step M s dt).1.velocityHistory = s.velocityHistory ∧
    (step M s dt).1.energyHistory = s.energyHistory ∧
    (step M s dt).1.phaseHistory = s.phaseHistory ∧
    (step M s dt).1.initialState = s.initialState ∧
    (step M s dt).1.params = s.params ∧
    (step M s dt).1.recordingEnabled = s.recordingEnabled := by
  have hs : (step M s dt).1 =
      { s with state := integratedState M s dt,
               time := s.time + resolveDt M.fixedTimestep dt } := by
    rw [step_fst_eq]
    exact recordHistory_disabled M _ _ h
  rw [hs]
  exact ⟨rfl, rfl, rfl, rfl, rfl, rfl, rfl, rfl⟩

/-- C7 witness: one step of the concrete `ℚ` model from the freshly
constructed state (recording off) changes no history buffer. -/
theorem step_without_recording_keeps_history_witness :
    (step qModel (SimState.initial (α := ℚ)) 1).1.timeHistory =
      (SimState.initial (α := ℚ)).timeHistory ∧
    (step qModel (SimState.initial (α := ℚ)) 1).1.positionHistory =
      (SimState.initial (α := ℚ)).positionHistory ∧
    (step qModel (SimState.initial (α := ℚ)) 1).1.velocityHistory =
      (SimState.initial (α := ℚ)).velocityHistory ∧
    (step qModel (SimState.initial (α := ℚ)) 1).1.energyHistory =
      (SimState.initial (α := ℚ)).energyHistory ∧
    (step qModel (SimState.initial (α := ℚ)) 1).1.phaseHistory =
      (SimState.initial (α := ℚ)).phaseHistory ∧
    (step qModel (SimState.initial (α := ℚ)) 1).1.initialState =
      (SimState.initial (α := ℚ)).initialState ∧
    (step qModel (SimState.initial (α := ℚ)) 1).1.params =
      (SimState.initial (α := ℚ)).params ∧
    (step qModel (SimState.initial (α := ℚ)) 1).1.recordingEnabled =
      (SimState.initial (α := ℚ)).recordingEnabled :=
  step_without_recording_keeps_history qModel (SimState.initial (α := ℚ)) 1
    rfl

/-! ## C8: the history-buffer length invariant -/

/-- The C8 invariant: the four parallel buffers (time, position, velocity,
energy) have equal lengths, never exceeding `maxHistoryLength`. -/
def histInv {α : Type} (s : SimState α) : Prop :=
  s.positionHistory.length = s.timeHistory.length ∧
  s.velocityHistory.length = s.timeHistory.length ∧
  s.energyHistory.length = s.timeHistory.length ∧
  s.timeHistory.length ≤ maxHistoryLength

section HistoryInvariant

variable {α : Type} [Field α] [DecidableEq α]

theorem step_disabled_fst (M : ModelSpec α) (s : SimState α) (dt : α)
    (hrec : s.recordingEnabled = false) :
    (step M s dt).1 =
      { s with state := integratedState M s dt,
               time := s.time + resolveDt M.fixedTimestep dt } := by
  rw [step_fst_eq]
  exact recordHistory_disabled M _ _ hrec

theorem step_push_buffers (M : ModelSpec α) (s : SimState α) (dt : α)
    (hrec : s.recordingEnabled = true)
    (hlen : s.timeHistory.length < maxHistoryLength) :
    (step M s dt).1.timeHistory = s.timeHistory ++ [(step M s dt).2.time] ∧
    (step M s dt).1.positionHistory =
      s.positionHistory ++ [(step M s dt).2.positions] ∧
    (step M s dt).1.velocityHistory =
      s.velocityHistory ++ [(step M s dt).2.velocities] ∧
    (step M s dt).1.energyHistory =
      s.energyHistory ++ [M.getEnergy s.params (integratedState M s dt)] := by
  rw [step_fst_eq, step_snd_eq]
  exact recordHistory_enabled_push M _ _ hrec hlen

theorem step_trim_buffers (M : ModelSpec α) (s : SimState α) (dt : α)
    (hrec : s.recordingEnabled = true)
    (hlen : maxHistoryLength ≤ s.timeHistory.length) :
    (step M s dt).1.timeHistory =
      keepLast retainedLength s.timeHistory ++ [(step M s dt).2.time] ∧
    (step M s dt).1.positionHistory =
      keepLast retainedLength s.positionHistory ++
        [(step M s dt).2.positions] ∧
    (step M s dt).1.velocityHistory =
      keepLast retainedLength s.velocityHistory ++
        [(step M s dt).2.velocities] ∧
    (step M s dt).1.energyHistory =
      keepLast retainedLength s.energyHistory ++
        [M.getEnergy s.params (integratedState M s dt)] := by
  rw [step_fst_eq, step_snd_eq]
  exact recordHistory_enabled_trim M _ _ hrec hlen

theorem histInv_step (M : ModelSpec α) (s : SimState α) (dt : α)
    (hinv : histInv s) : histInv (step M s dt).1 := by
  obtain ⟨h1, h2, h3, h4⟩ := hinv
  cases hrec : s.recordingEnabled with
  | false =>
      rw [step_disabled_fst M s dt hrec]
      exact ⟨h1, h2, h3, h4⟩
  | true =>
      rcases Nat.lt_or_ge s.timeHistory.length maxHistoryLength with hlen | hlen
      · obtain ⟨ht, hp, hv, he⟩ := step_push_buffers M s dt hrec hlen
        refine ⟨?_, ?_, ?_, ?_⟩
        · rw [hp, ht]; simp [h1]
        · rw [hv, ht]; simp [h2]
        · rw [he, ht]; simp [h3]
        · rw [ht]; simp only [List.length_append, List.length_cons,
            List.length_nil]; omega
      · obtain ⟨ht, hp, hv, he⟩ := step_trim_buffers M s dt hrec hlen
        have hret : retainedLength = 9000 := rfl
        have hmax : maxHistoryLength = 10000 := rfl
        refine ⟨?_, ?_, ?_, ?_⟩
        · rw [hp, ht]; simp [keepLast_length, h1]
        · rw [hv, ht]; simp [keepLast_length, h2]
        · rw [he, ht]; simp [keepLast_length, h3]
        · rw [ht]; simp only [List.length_append, List.length_cons,
            List.length_nil, keepLast_length]; omega

end HistoryInvariant

/-- C8: every lifecycle operation preserves the history invariant (four
mutually equal buffer lengths, bounded by `maxHistoryLength`); while
recording, a `step` below capacity appends exactly one sample to each
buffer, and a `step` at capacity first truncates every buffer from the front
to the same retained length `retainedLength` (drop-oldest), strictly below
the maximum, before appending. -/
theorem history_buffers_bounded_and_parallel {α : Type} [Field α]
    [DecidableEq α] (M : ModelSpec α) (s : SimState α)
    (p : List (String × α)) (dt : α) (b : Bool) (hinv : histInv s) :
    histInv (init M s p) ∧
    histInv (reset s) ∧
    histInv (enableRecording s b) ∧
    histInv (step M s dt).1 ∧
    (s.recordingEnabled = true → s.timeHistory.length < maxHistoryLength →
      (step M s dt).1.timeHistory = s.timeHistory ++ [(step M s dt).2.time] ∧
      (step M s dt).1.positionHistory =
        s.positionHistory ++ [(step M s dt).2.positions] ∧
      (step M s dt).1.velocityHistory =
        s.velocityHistory ++ [(step M s dt).2.velocities] ∧
      (step M s dt).1.energyHistory =
        s.energyHistory ++ [M.getEnergy s.params (integratedState M s dt)] ∧
      (step M s dt).1.timeHistory.length = s.timeHistory.length + 1) ∧
    (s.recordingEnabled = true → maxHistoryLength ≤ s.timeHistory.length →
      (step M s dt).1.timeHistory =
        keepLast retainedLength s.timeHistory ++ [(step M s dt).2.time] ∧
      (step M s dt).1.positionHistory =
        keepLast retainedLength s.positionHistory ++
          [(step M s dt).2.positions] ∧
      (step M s dt).1.velocityHistory =
        keepLast retainedLength s.velocityHistory ++
          [(step M s dt).2.velocities] ∧
      (step M s dt).1.energyHistory =
        keepLast retainedLength s.energyHistory ++
          [M.getEnergy s.params (integratedState M s dt)] ∧
      (step M s dt).1.timeHistory.length = retainedLength + 1 ∧
      retainedLength < maxHistoryLength) := by
  refine ⟨⟨rfl, rfl, rfl, Nat.zero_le _⟩, ⟨rfl, rfl, rfl, Nat.zero_le _⟩,
    ?_, histInv_step M s dt hinv, ?_, ?_⟩
  · cases b with
    | false => exact hinv
    | true => exact ⟨rfl, rfl, rfl, Nat.zero_le _⟩
  · intro hrec hlen
    obtain ⟨ht, hp, hv, he⟩ := step_push_buffers M s dt hrec hlen
    exact ⟨ht, hp, hv, he, by rw [ht]; simp⟩
  · intro hrec hlen
    obtain ⟨ht, hp, hv, he⟩ := step_trim_buffers M s dt hrec hlen
    have hret : retainedLength = 9000 := rfl
    have hmax : maxHistoryLength = 10000 := rfl
    refine ⟨ht, hp, hv, he, ?_, by omega⟩
    rw [ht]
    simp only [List.length_append, List.length_cons, List.length_nil,
      keepLast_length]
    omega

/-- C8 witness: the freshly constructed simulation satisfies the invariant,
and the theorem applies to it with the concrete `ℚ` model. -/
theorem history_buffers_bounded_and_parallel_witness :
    histInv (init qModel (SimState.initial (α := ℚ)) []) ∧
    histInv (reset (SimState.initial (α := ℚ))) ∧
    histInv (enableRecording (SimState.initial (α := ℚ)) true) ∧
    histInv (step qModel (SimState.initial (α := ℚ)) 1).1 ∧
    ((SimState.initial (α := ℚ)).recordingEnabled = true →
      (SimState.initial (α := ℚ)).timeHistory.length < maxHistoryLength →
      (step qModel (SimState.initial (α := ℚ)) 1).1.timeHistory =
        (SimState.initial (α := ℚ)).timeHistory ++
          [(step qModel (SimState.initial (α := ℚ)) 1).2.time] ∧
      (step qModel (SimState.initial (α := ℚ)) 1).1.positionHistory =
        (SimState.initial (α := ℚ)).positionHistory ++
          [(step qModel (SimState.initial (α := ℚ)) 1).2.positions] ∧
      (step qModel (SimState.initial (α := ℚ)) 1).1.velocityHistory =
        (SimState.initial (α := ℚ)).velocityHistory ++
          [(step qModel (SimState.initial (α := ℚ)) 1).2.velocities] ∧
      (step qModel (SimState.initial (α := ℚ)) 1).1.energyHistory =
        (SimState.initial (α := ℚ)).energyHistory ++
          [qModel.getEnergy (SimState.initial (α := ℚ)).params
            (integratedState qModel (SimState.initial (α := ℚ)) 1)] ∧
      (step qModel (SimState.initial (α := ℚ)) 1).1.timeHistory.length =
        (SimState.initial (α := ℚ)).timeHistory.length + 1) ∧
    ((SimState.initial (α := ℚ)).recordingEnabled = true →
      maxHistoryLength ≤ (SimState.initial (α := ℚ)).timeHistory.length →
      (step qModel (SimState.initial (α := ℚ)) 1).1.timeHistory =
        keepLast retainedLength (SimState.initial (α := ℚ)).timeHistory ++
          [(step qModel (SimState.initial (α := ℚ)) 1).2.time] ∧
      (step qModel (SimState.initial (α := ℚ)) 1).1.positionHistory =
        keepLast retainedLength
            (SimState.initial (α := ℚ)).positionHistory ++
          [(step qModel (SimState.initial (α := ℚ)) 1).2.positions] ∧
      (step qModel (SimState.initial (α := ℚ)) 1).1.velocityHistory =
        keepLast retainedLength
            (SimState.initial (α := ℚ)).velocityHistory ++
          [(step qModel (SimState.initial (α := ℚ)) 1).2.velocities] ∧
      (step qModel (SimState.initial (α := ℚ)) 1).1.energyHistory =
        keepLast retainedLength (SimState.initial (α := ℚ)).energyHistory ++
          [qModel.getEnergy (SimState.initial (α := ℚ)).params
            (integratedState qModel (SimState.initial (α := ℚ)) 1)] ∧
      (step qModel (SimState.initial (α := ℚ)) 1).1.timeHistory.length =
        retainedLength + 1 ∧
      retainedLength < maxHistoryLength) :=
  history_buffers_bounded_and_parallel qModel (SimState.initial (α := ℚ))
    [] 1 true ⟨rfl, rfl, rfl, Nat.zero_le _⟩

/-! ## C3: the fixed timestep wins over the caller-supplied `dt` -/

/-- C3: for a model whose configured fixed timestep is non-zero, `step dt`
is independent of the caller-supplied `dt` and advances time by exactly the
fixed timestep; with a zero (i.e. unconfigured, JS-falsy) fixed timestep the
caller-supplied `dt` is used and time advances by `dt`. -/
theorem step_fixed_timestep_wins {α : Type} [Field α] [DecidableEq α]
    (M : ModelSpec α) (s : SimState α) (dt dt' : α)
    (h : M.fixedTimestep ≠ 0) :
    (step M s dt).1.time = s.time + M.fixedTimestep ∧
    step M s dt = step M s dt' ∧
    (step { M with fixedTimestep := 0 } s dt).1.time = s.time + dt := by
  have hres : resolveDt M.fixedTimestep dt = M.fixedTimestep := if_neg h
  have hres' : resolveDt M.fixedTimestep dt' = M.fixedTimestep := if_neg h
  have hres0 : resolveDt (0 : α) dt = dt := if_pos rfl
  refine ⟨?_, step_congr_dt M s dt dt' (hres.trans hres'.symm), ?_⟩
  · rw [(step_core M s dt).1, hres]
  · rw [(step_core { M with fixedTimestep := 0 } s dt).1]
    simp only [hres0]

/-! ## C5: determinism and reset idempotence -/

/-- Repeated stepping never touches the initial-state snapshot, the
parameters or the recording flag. -/
theorem stepN_core {α : Type} [Field α] [DecidableEq α] (M : ModelSpec α)
    (dt : α) :
    ∀ (n : ℕ) (s : SimState α),
      (stepN M dt s n).1.initialState = s.initialState ∧
      (stepN M dt s n).1.params = s.params ∧
      (stepN M dt s n).1.recordingEnabled = s.recordingEnabled
  | 0, _ => ⟨rfl, rfl, rfl⟩
  | n + 1, s => by
      have h := step_core M s dt
      have ih := stepN_core M dt n (step M s dt).1
      simp only [stepN]
      exact ⟨ih.1.trans h.2.2.1, ih.2.1.trans h.2.2.2.1,
             ih.2.2.trans h.2.2.2.2⟩

/-- C5: `init(p)` followed by `N` steps, then `reset()`, then `N` steps again
with no intervening `init`, produces identical `PhysicsState` sequences:
`reset` restores exactly the simulation state produced by `init` (state
vector from the snapshot, time 0, cleared history), and stepping is a
deterministic function of that state. -/
theorem replay_after_reset_identical {α : Type} [Field α] [DecidableEq α]
    (M : ModelSpec α) (s : SimState α) (p : List (String × α)) (dt : α)
    (N : ℕ) :
    reset ((stepN M dt (init M s p) N).1) = init M s p ∧
    (stepN M dt (reset ((stepN M dt (init M s p) N).1)) N).2 =
      (stepN M dt (init M s p) N).2 := by
  have hcore := stepN_core M dt N (init M s p)
  have hreset : reset ((stepN M dt (init M s p) N).1) = init M s p := by
    apply SimState.ext
    · rfl
    · exact hcore.1
    · exact hcore.1
    · exact hcore.2.1
    · rfl
    · rfl
    · rfl
    · rfl
    · rfl
    · exact hcore.2.2
  exact ⟨hreset, by rw [hreset]⟩

/-- C3 witness: the concrete `ℚ` model has fixed timestep `1/480 ≠ 0`; a step
with caller `dt = 7` equals a step with caller `dt = 9` and advances time by
`1/480`. -/
theorem step_fixed_timestep_wins_witness :
    (step qModel (SimState.initial (α := ℚ)) 7).1.time =
      (SimState.initial (α := ℚ)).time + qModel.fixedTimestep ∧
    step qModel (SimState.initial (α := ℚ)) 7 =
      step qModel (SimState.initial (α := ℚ)) 9 ∧
    (step { qModel with fixedTimestep := 0 }
        (SimState.initial (α := ℚ)) 7).1.time =
      (SimState.initial (α := ℚ)).time + 7 :=
  step_fixed_timestep_wins qModel (SimState.initial (α := ℚ)) 7 9 (by norm_num [qModel])

/-! ## C9: parameter immutability -/

/-- C9 (amended): `step`, `reset`, `enableRecording`, `export` and
`getParams` all leave the parameter record unchanged (and `getEnergy` /
`getPhaseSpace` are pure observers), but the public `setParams` merges new
values into the parameters without any re-initialization. -/
theorem params_unchanged_except_setParams {α : Type} [Field α]
    [DecidableEq α] (M : ModelSpec α) (s : SimState α) (dt : α) (b : Bool)
    (q : List (String × α)) :
    (step M s dt).1.params = s.params ∧
    (reset s).params = s.params ∧
    (enableRecording s b).params = s.params ∧
    (exportData s).params = s.params ∧
    getParams s = s.params ∧
    (setParams s q).params = mergeRecord s.params q := by
  refine ⟨(step_core M s dt).2.2.2.1, rfl, ?_, rfl, rfl, rfl⟩
  cases b <;> rfl

/-- A concrete simulation state holding `gravity = 10`. -/
def c9State : SimState ℚ :=
  { SimState.initial with params := [("gravity", 10)] }

/-- C9 counterexample: `setParams` is a public operation other than
re-initialization, yet it changes the parameter set — here it rebinds
`gravity` from `10` to `5`. -/
theorem setParams_changes_params_counterexample :
    (setParams c9State [("gravity", 5)]).params.lookup "gravity" ≠
      c9State.params.lookup "gravity" ∧
    (setParams c9State [("gravity", 5)]).params.lookup "gravity" =
      some 5 := by
  constructor
  · decide
  · decide

/-! ## C6: NPendulum initial-state length and (absent) validation -/

namespace NPendulum

/-- Embedding of `NPendulum.createInitialState` (src/unnamed/part_006,
lines 83–101): `n` is read from the params (`this.n = p.n`) with no
validation, the angles are `initialSpread * (1 - i/n)` for `i < n`, followed
by `n` zero velocities.  Generic over the scalar field — the arithmetic uses
no transcendental function. -/
def createInitialState {α : Type} [Field α] (n : ℕ) (initialSpread : α) :
    List α :=
  ((List.range n).map fun i : ℕ =>
      initialSpread * (1 - (i : α) / (n : α))) ++
    List.replicate n 0

end NPendulum

/-- C6 counterexample: `n = 11`, outside the documented range `[2, 10]`, is
neither rejected nor clamped — `createInitialState` is total and simply
returns a state vector of length `22`, which no clamped `n ≤ 10` could
produce (clamping would give length at most `20`). -/
theorem npendulum_no_validation_counterexample :
    (NPendulum.createInitialState 11 (1 : ℚ)).length = 2 * 11 ∧
    ¬ (NPendulum.createInitialState 11 (1 : ℚ)).length ≤ 2 * 10 := by
  constructor
  · rw [NPendulum.createInitialState, List.length_append, List.length_map,
      List.length_range, List.length_replicate]
  · rw [NPendulum.createInitialState, List.length_append, List.length_map,
      List.length_range, List.length_replicate]
    decide

/-- C6 (amended): `NPendulum.createInitialState` performs no validation of
`n`: for every `k` (inside or outside `[2, 10]`) it yields a state vector of
length exactly `2k`; the `[2, 10]` bounds exist only as UI metadata on the
`n` parameter definition. -/
theorem npendulum_state_length {α : Type} [Field α] (n : ℕ) (spread : α) :
    (NPendulum.createInitialState n spread).length = 2 * n := by
  rw [NPendulum.createInitialState, List.length_append, List.length_map,
    List.length_range, List.length_replicate]
  omega

/-! ## C2: DoublePendulum derivatives -/

/-- The `DoublePendulumParams` interface (src/unnamed/part_003,
lines 23–34). -/
structure DoublePendulumParams where
  length1 : ℝ
  length2 : ℝ
  mass1 : ℝ
  mass2 : ℝ
  gravity : ℝ
  damping : ℝ
  initialAngle1 : ℝ
  initialAngle2 : ℝ
  initialVelocity1 : ℝ
  initialVelocity2 : ℝ

namespace DoublePendulum

/-- Embedding of `DoublePendulum.computeDerivatives` (src/unnamed/part_003,
lines 114–151): destructures `[theta1, theta2, omega1, omega2]` from the
state, computes the Lagrangian angular accelerations with the shared
denominator `L·(2m1 + m2 − m2·cos(2δ))` and subtracts `damping·ω` from each,
returning `[omega1, omega2, alpha1, alpha2]`. -/
noncomputable def computeDerivatives (p : DoublePendulumParams) (_t : ℝ)
    (state : List ℝ) : List ℝ :=
  let theta1 := state.getD 0 0
  let theta2 := state.getD 1 0
  let omega1 := state.getD 2 0
  let omega2 := state.getD 3 0
  let L1 := p.length1
  let L2 := p.length2
  let m1 := p.mass1
  let m2 := p.mass2
  let g := p.gravity
  let damping := p.damping
  let delta := theta1 - theta2
  let sinDelta := Real.sin delta
  let cosDelta := Real.cos delta
  let denom1 := L1 * (2 * m1 + m2 - m2 * Real.cos (2 * delta))
  let denom2 := L2 * (2 * m1 + m2 - m2 * Real.cos (2 * delta))
  let alpha1 :=
    (-g * (2 * m1 + m2) * Real.sin theta1 -
        m2 * g * Real.sin (theta1 - 2 * theta2) -
        2 * sinDelta * m2 *
          (omega2 * omega2 * L2 + omega1 * omega1 * L1 * cosDelta)) /
      denom1 -
    damping * omega1
  let alpha2 :=
    (2 * sinDelta *
        (omega1 * omega1 * L1 * (m1 + m2) +
          g * (m1 + m2) * Real.cos theta1 +
          omega2 * omega2 * L2 * m2 * cosDelta)) /
      denom2 -
    damping * omega2
  [omega1, omega2, alpha1, alpha2]

end DoublePendulum

/-- Modelled from the spec: the standard Lagrangian two-point-mass
double-pendulum angular acceleration of the first bob, with the shared
denominator `L1·(2m1 + m2 − m2·cos(2(θ1−θ2)))`. -/
noncomputable def lagrangianAlpha1 (L1 L2 m1 m2 g θ1 θ2 ω1 ω2 : ℝ) : ℝ :=
  (-g * (2 * m1 + m2) * Real.sin θ1 - m2 * g * Real.sin (θ1 - 2 * θ2) -
      2 * Real.sin (θ1 - θ2) * m2 *
        (ω2 ^ 2 * L2 + ω1 ^ 2 * L1 * Real.cos (θ1 - θ2))) /
    (L1 * (2 * m1 + m2 - m2 * Real.cos (2 * (θ1 - θ2))))

/-- Modelled from the spec: the standard Lagrangian two-point-mass
double-pendulum angular acceleration of the second bob, with the shared
denominator `L2·(2m1 + m2 − m2·cos(2(θ1−θ2)))`. -/
noncomputable def lagrangianAlpha2 (L1 L2 m1 m2 g θ1 θ2 ω1 ω2 : ℝ) : ℝ :=
  (2 * Real.sin (θ1 - θ2) *
      (ω1 ^ 2 * L1 * (m1 + m2) + g * (m1 + m2) * Real.cos θ1 +
        ω2 ^ 2 * L2 * m2 * Real.cos (θ1 - θ2))) /
    (L2 * (2 * m1 + m2 - m2 * Real.cos (2 * (θ1 - θ2))))

/-- C2: on a state `[θ1, θ2, ω1, ω2]`, `DoublePendulum.computeDerivatives`
returns `[ω1, ω2, α1, α2]` where each `αi` is the standard Lagrangian
angular acceleration (shared denominator `Li·(2m1+m2−m2·cos(2(θ1−θ2)))`)
with `damping·ωi` subtracted directly from it. -/
theorem double_pendulum_derivatives_lagrangian (p : DoublePendulumParams)
    (t θ1 θ2 ω1 ω2 : ℝ) :
    DoublePendulum.computeDerivatives p t [θ1, θ2, ω1, ω2] =
      [ω1, ω2,
       lagrangianAlpha1 p.length1 p.length2 p.mass1 p.mass2 p.gravity
           θ1 θ2 ω1 ω2 - p.damping * ω1,
       lagrangianAlpha2 p.length1 p.length2 p.mass1 p.mass2 p.gravity
           θ1 θ2 ω1 ω2 - p.damping * ω2] := by
  simp only [DoublePendulum.computeDerivatives, lagrangianAlpha1,
    lagrangianAlpha2, List.getD_cons_zero, List.getD_cons_succ,
    List.cons.injEq, and_true]
  refine ⟨trivial, trivial, ?_, ?_⟩ <;> ring

/-! ## C10: normalizeAngle (src/unnamed/part_002, lines 118–122) -/

/-- The first loop of `normalizeAngle`:
`while (angle > Math.PI) angle -= 2 * Math.PI`.  Terminates because each
iteration lowers `⌈(angle − π)/(2π)⌉` by one (over the reals every value is
finite; the non-terminating IEEE `Infinity` input has no counterpart
here). -/
noncomputable def normalizeSubLoop (angle : ℝ) : ℝ :=
  if h : Real.pi < angle then normalizeSubLoop (angle - 2 * Real.pi)
  else angle
termination_by (⌈(angle - Real.pi) / (2 * Real.pi)⌉).toNat
decreasing_by
  have hπ : (0 : ℝ) < Real.pi := Real.pi_pos
  have h2π : (0 : ℝ) < 2 * Real.pi := by linarith
  have heq : (angle - 2 * Real.pi - Real.pi) / (2 * Real.pi) =
      (angle - Real.pi) / (2 * Real.pi) - 1 := by
    field_simp
    ring
  have hpos : 0 < ⌈(angle - Real.pi) / (2 * Real.pi)⌉ :=
    Int.ceil_pos.mpr (div_pos (by linarith) h2π)
  rw [heq, Int.ceil_sub_one]
  omega

/-- The second loop of `normalizeAngle`:
`while (angle < -Math.PI) angle += 2 * Math.PI`. -/
noncomputable def normalizeAddLoop (angle : ℝ) : ℝ :=
  if h : angle < -Real.pi then normalizeAddLoop (angle + 2 * Real.pi)
  else angle
termination_by (⌈(-Real.pi - angle) / (2 * Real.pi)⌉).toNat
decreasing_by
  have hπ : (0 : ℝ) < Real.pi := Real.pi_pos
  have h2π : (0 : ℝ) < 2 * Real.pi := by linarith
  have heq : (-Real.pi - (angle + 2 * Real.pi)) / (2 * Real.pi) =
      (-Real.pi - angle) / (2 * Real.pi) - 1 := by
    field_simp
    ring
  have hpos : 0 < ⌈(-Real.pi - angle) / (2 * Real.pi)⌉ :=
    Int.ceil_pos.mpr (div_pos (by linarith) h2π)
  rw [heq, Int.ceil_sub_one]
  omega

/-- Embedding of `normalizeAngle`: the two while-loops run in sequence. -/
noncomputable def normalizeAngle (angle : ℝ) : ℝ :=
  normalizeAddLoop (normalizeSubLoop angle)

theorem normalizeSubLoop_le (a : ℝ) : normalizeSubLoop a ≤ Real.pi := by
  induction a using normalizeSubLoop.induct with
  | case1 a h ih =>
      rw [normalizeSubLoop, dif_pos h]
      exact ih
  | case2 a h =>
      rw [normalizeSubLoop, dif_neg h]
      exact le_of_not_lt h

theorem normalizeSubLoop_multiple (a : ℝ) :
    ∃ k : ℕ, normalizeSubLoop a = a - 2 * Real.pi * k := by
  induction a using normalizeSubLoop.induct with
  | case1 a h ih =>
      rw [normalizeSubLoop, dif_pos h]
      obtain ⟨k, hk⟩ := ih
      exact ⟨k + 1, by rw [hk]; push_cast; ring⟩
  | case2 a h =>
      rw [normalizeSubLoop, dif_neg h]
      exact ⟨0, by push_cast; ring⟩

theorem normalizeAddLoop_ge (a : ℝ) : -Real.pi ≤ normalizeAddLoop a := by
  induction a using normalizeAddLoop.induct with
  | case1 a h ih =>
      rw [normalizeAddLoop, dif_pos h]
      exact ih
  | case2 a h =>
      rw [normalizeAddLoop, dif_neg h]
      exact not_lt.mp h

theorem normalizeAddLoop_le (a : ℝ) :
    a ≤ Real.pi → normalizeAddLoop a ≤ Real.pi := by
  induction a using normalizeAddLoop.induct with
  | case1 a h ih =>
      intro _
      rw [normalizeAddLoop, dif_pos h]
      have hπ : (0 : ℝ) < Real.pi := Real.pi_pos
      exact ih (by linarith)
  | case2 a h =>
      intro ha
      rw [normalizeAddLoop, dif_neg h]
      exact ha

theorem normalizeAddLoop_multiple (a : ℝ) :
    ∃ k : ℕ, normalizeAddLoop a = a + 2 * Real.pi * k := by
  induction a using normalizeAddLoop.induct with
  | case1 a h ih =>
      rw [normalizeAddLoop, dif_pos h]
      obtain ⟨k, hk⟩ := ih
      exact ⟨k + 1, by rw [hk]; push_cast; ring⟩
  | case2 a h =>
      rw [normalizeAddLoop, dif_neg h]
      exact ⟨0, by push_cast; ring⟩

/-- C10: `normalizeAngle` terminates on every (finite) input — it is a total
function of a real argument — and returns a value in `[−π, π]` that differs
from the input by an integer multiple of `2π`. -/
theorem normalizeAngle_in_range_multiple_of_two_pi (a : ℝ) :
    -Real.pi ≤ normalizeAngle a ∧ normalizeAngle a ≤ Real.pi ∧
    ∃ k : ℤ, normalizeAngle a = a + 2 * Real.pi * k := by
  refine ⟨normalizeAddLoop_ge _,
    normalizeAddLoop_le _ (normalizeSubLoop_le a), ?_⟩
  obtain ⟨k1, hk1⟩ := normalizeSubLoop_multiple a
  obtain ⟨k2, hk2⟩ := normalizeAddLoop_multiple (normalizeSubLoop a)
  refine ⟨(k2 : ℤ) - k1, ?_⟩
  rw [normalizeAngle, hk2, hk1]
  push_cast
  ring

end PendulumSim
